import Mathlib

/-!
Verification of the SmartMedTFG time-series reconciliation and overlay engine
(`frontend/src/components/MetricsChart.jsx` and related component code).

The JavaScript source is shallowly embedded: JS numbers are modelled as an
inductive `JsNum` (NaN, ±Infinity, or a finite rational), dynamically typed
values as `JsVal`, ISO-8601 timestamp strings as integers (milliseconds since
the epoch, the value `Date.parse` produces; the series uses one canonical ISO
rendering per instant, so string equality coincides with instant equality),
JS `Map` objects as insertion-ordered association lists, and fallible code as
`Option`/`Except`.
-/

namespace SmartMed

/-- A JavaScript number: NaN, +Infinity, -Infinity, or a finite value
(finite doubles are modelled as rationals). -/
inductive JsNum where
  | nan
  | inf
  | ninf
  | fin (q : ℚ)
deriving DecidableEq, Repr

/-- JS `Number.isFinite` on a `JsNum`. -/
def JsNum.isFinite : JsNum → Bool
  | .fin _ => true
  | _ => false

/-- A dynamically typed JavaScript value as it reaches the chart component:
`null`/`undefined`, a number, a string, or an object.  A string literal
carries alongside it the number that `Number(s)` coerces it to (JS numeric
string parsing is not re-modelled); `Number` of a plain object is NaN, and an
object carries its `JSON.stringify` rendering. -/
inductive JsVal where
  | jnull
  | jnum (n : JsNum)
  | jstr (s : String) (coerced : JsNum)
  | jobj (jsonRendering : String)
deriving DecidableEq, Repr

/-- The coercion `Number(v)` for the values `normalizeDiscrete` can receive
(`Number("") = 0`, `Number(object) = NaN`). -/
def jsNumber : JsVal → JsNum
  | .jnull => .fin 0
  | .jnum n => n
  | .jstr s c => if s = "" then .fin 0 else c
  | .jobj _ => .nan

/-- JS `Math.round`: round half toward positive infinity. -/
def jsRound (q : ℚ) : ℤ := ⌊q + 1/2⌋

/-- Function `normalizeDiscrete` (MetricsChart.jsx lines 32–37):
`null`/`undefined` or the empty string give `null`; otherwise coerce with
`Number`, give `null` when not finite, else round and clamp into `[1, 5]`
via `Math.min(5, Math.max(1, Math.round(n)))`. -/
def normalizeDiscrete (v : JsVal) : Option ℤ :=
  match v with
  | .jnull => none
  | .jstr "" _ => none
  | _ =>
    match jsNumber v with
    | .fin q => some (min 5 (max 1 (jsRound q)))
    | _ => none

/-- Re-injection of a `normalizeDiscrete` result into the JS value world
(`null` stays `null`, an integer is a finite number). -/
def optToJs : Option ℤ → JsVal
  | none => .jnull
  | some k => .jnum (.fin k)

theorem normalizeDiscrete_jnull : normalizeDiscrete .jnull = none := rfl

theorem normalizeDiscrete_fin (q : ℚ) :
    normalizeDiscrete (.jnum (.fin q)) = some (min 5 (max 1 (jsRound q))) := rfl

theorem jsRound_intCast (k : ℤ) : jsRound (k : ℚ) = k := by
  unfold jsRound
  rw [show ((k : ℚ) + 1/2) = (1/2 : ℚ) + k by ring, Int.floor_add_int]
  norm_num

/-- Claim `C5`: ScaleNormalizer totality and range — for every input `v`,
`normalizeDiscrete v` is either `null` or an integer in `{1,2,3,4,5}`;
`null`, empty-string and non-finite input yield `null`; any finite numeric
input is rounded to the nearest integer and clamped to `[1,5]` (so
`normalize(-10) = 1` and `normalize(99) = 5`).  Totality of the Lean
function models that the JS function never throws. -/
theorem C5_normalize_total_range (v : JsVal) :
    (normalizeDiscrete v = none ∨
      ∃ k : ℤ, normalizeDiscrete v = some k ∧ 1 ≤ k ∧ k ≤ 5)
    ∧ normalizeDiscrete .jnull = none
    ∧ (∀ c : JsNum, normalizeDiscrete (.jstr "" c) = none)
    ∧ normalizeDiscrete (.jnum .nan) = none
    ∧ normalizeDiscrete (.jnum .inf) = none
    ∧ normalizeDiscrete (.jnum .ninf) = none
    ∧ (∀ q : ℚ, normalizeDiscrete (.jnum (.fin q)) = some (min 5 (max 1 (jsRound q))))
    ∧ normalizeDiscrete (.jnum (.fin (-10))) = some 1
    ∧ normalizeDiscrete (.jnum (.fin 99)) = some 5 := by
  refine ⟨?_, rfl, fun c => rfl, rfl, rfl, rfl, fun q => rfl, ?_, ?_⟩
  · cases v with
    | jnull => exact Or.inl rfl
    | jobj r => exact Or.inl rfl
    | jstr s c =>
      by_cases hs : s = ""
      · subst hs; exact Or.inl rfl
      · cases c with
        | fin q =>
          refine Or.inr ⟨min 5 (max 1 (jsRound q)), ?_, ?_, ?_⟩
          · simp [normalizeDiscrete, jsNumber, hs]
          · omega
          · omega
        | nan => simp [normalizeDiscrete, jsNumber, hs]
        | inf => simp [normalizeDiscrete, jsNumber, hs]
        | ninf => simp [normalizeDiscrete, jsNumber, hs]
    | jnum n =>
      cases n with
      | fin q => exact Or.inr ⟨min 5 (max 1 (jsRound q)), rfl, by omega, by omega⟩
      | nan => exact Or.inl rfl
      | inf => exact Or.inl rfl
      | ninf => exact Or.inl rfl
  · show some (min 5 (max 1 (jsRound (-10)))) = some 1
    norm_num [jsRound]
  · show some (min 5 (max 1 (jsRound 99))) = some 5
    norm_num [jsRound]

/-- Claim `C6`: ScaleNormalizer idempotence —
`normalize(normalize(x)) === normalize(x)` (the intermediate result, `null`
or a number, fed back in as the JS value it is). -/
theorem C6_normalize_idempotent (v : JsVal) :
    normalizeDiscrete (optToJs (normalizeDiscrete v)) = normalizeDiscrete v := by
  rcases h : normalizeDiscrete v with _ | k
  · rfl
  · have hk : 1 ≤ k ∧ k ≤ 5 := by
      rcases (C5_normalize_total_range v).1 with h0 | ⟨k', hk', h1, h5⟩
      · rw [h] at h0; cases h0
      · rw [h] at hk'; injection hk' with hkk; omega
    show normalizeDiscrete (.jnum (.fin (k : ℚ))) = some k
    rw [normalizeDiscrete_fin, jsRound_intCast]
    congr 1
    omega

/-! ## Reconciler (MetricsChart.jsx lines 217–246)

A real point is an element of the `data` state (`{tISO, value}` where
`value` already went through `normalizeDiscrete`); an overlay point is an
element of the `overlay` state (`{time, value}`); the active window is the
`currentRange` pair.  Timestamp strings are modelled by their parsed
instants. -/

/-- An element of the `data` state: `{ tISO: p.t, value: normalizeDiscrete(p.v) }`. -/
structure RealPoint where
  tISO : ℤ
  value : Option ℤ
deriving DecidableEq, Repr

/-- An element of the `overlay` state: `{ time, value }`. -/
structure OverlayPoint where
  time : ℤ
  value : Option ℤ
deriving DecidableEq, Repr

/-- The active window `currentRange` as millisecond instants. -/
structure TimeWindow where
  fromMs : ℤ
  toMs : ℤ
deriving DecidableEq, Repr

/-- The window test `t >= fromMs && t <= toMs` applied to a parsed timestamp. -/
def inWindow (w : TimeWindow) (t : ℤ) : Bool :=
  w.fromMs ≤ t && t ≤ w.toMs

/-- The set `realTimes` of real-series timestamps inside the window
(MetricsChart.jsx lines 221–228); the JS `Set` is modelled by a list used
only through membership. -/
def realTimes (data : List RealPoint) (w : TimeWindow) : List ℤ :=
  (data.map RealPoint.tISO).filter (fun t => inWindow w t)

/-- The memo `filteredOverlay` (lines 217–230): empty when either source list is
empty, otherwise the overlay points whose timestamp is a member of
`realTimes`. -/
def filteredOverlay (overlay : List OverlayPoint) (data : List RealPoint)
    (w : TimeWindow) : List OverlayPoint :=
  if overlay.isEmpty || data.isEmpty then []
  else overlay.filter (fun p => decide (p.time ∈ realTimes data w))

/-- A row of the `merged` output: `{ time, real, sim }`. -/
structure MergedRecord where
  time : ℤ
  real : Option ℤ
  sim : Option ℤ
deriving DecidableEq, Repr

/-- JS `map.set(t, row)` on an insertion-ordered JS `Map` keyed by `row.time`:
replace in place when the key exists, else append. -/
def mapSet (m : List MergedRecord) (r : MergedRecord) : List MergedRecord :=
  if m.any (fun e => e.time = r.time) then
    m.map (fun e => if e.time = r.time then r else e)
  else m ++ [r]

/-- The second loop of `merged`: `const row = map.get(t); if (row) row.sim = v`
— a lookup miss is a no-op. -/
def setSim (m : List MergedRecord) (t : ℤ) (v : Option ℤ) : List MergedRecord :=
  m.map (fun e => if e.time = t then { e with sim := v } else e)

/-- Insertion step for the final ascending sort by timestamp. -/
def insertSorted (r : MergedRecord) : List MergedRecord → List MergedRecord
  | [] => [r]
  | x :: xs => if r.time ≤ x.time then r :: x :: xs else x :: insertSorted r xs

/-- The sort `Array.from(map.values()).sort((a, b) => a.time.localeCompare(b.time))`:
`localeCompare` on same-format ISO strings is chronological order, modelled
by insertion sort on the parsed instants (map keys are distinct, so the sort
is unambiguous). -/
def sortByTime (l : List MergedRecord) : List MergedRecord :=
  l.foldr insertSorted []

/-- The first loop of `merged` (lines 234–237): one row per `data` entry,
`{ time: t, real: p.value ?? null, sim: null }`, last write wins on a
duplicate timestamp. -/
def mergedSeed (data : List RealPoint) : List MergedRecord :=
  data.foldl (fun m p => mapSet m ⟨p.tISO, p.value, none⟩) []

/-- The memo `merged` (lines 232–244): seed one row per `data` entry, then write `sim`
from each filtered overlay point, then sort ascending by timestamp. -/
def merged (data : List RealPoint) (overlay : List OverlayPoint)
    (w : TimeWindow) : List MergedRecord :=
  sortByTime ((filteredOverlay overlay data w).foldl
    (fun m p => setSim m p.time p.value) (mergedSeed data))

/-- The flag `hasOverlay` (line 246). -/
def hasOverlay (overlay : List OverlayPoint) (data : List RealPoint)
    (w : TimeWindow) : Bool :=
  0 < (filteredOverlay overlay data w).length

theorem mem_mapSet {m : List MergedRecord} {x r : MergedRecord}
    (h : r ∈ mapSet m x) : r ∈ m ∨ r = x := by
  unfold mapSet at h
  split at h
  · rcases List.mem_map.1 h with ⟨e, he, hre⟩
    by_cases het : e.time = x.time
    · simp [het] at hre; exact Or.inr hre.symm
    · simp [het] at hre; exact Or.inl (hre ▸ he)
  · rcases List.mem_append.1 h with h' | h'
    · exact Or.inl h'
    · exact Or.inr (List.mem_singleton.1 h')

theorem mem_setSim {m : List MergedRecord} {t : ℤ} {v : Option ℤ}
    {r : MergedRecord} (h : r ∈ setSim m t v) :
    ∃ e ∈ m, r.time = e.time ∧ (r = e ∨ (e.time = t ∧ r = { e with sim := v })) := by
  rcases List.mem_map.1 h with ⟨e, he, hre⟩
  by_cases het : e.time = t
  · rw [if_pos het] at hre
    exact ⟨e, he, by rw [← hre], Or.inr ⟨het, hre.symm⟩⟩
  · rw [if_neg het] at hre
    exact ⟨e, he, by rw [hre], Or.inl hre.symm⟩

theorem mem_insertSorted {r a : MergedRecord} :
    ∀ {l : List MergedRecord}, a ∈ insertSorted r l ↔ a = r ∨ a ∈ l := by
  intro l
  induction l with
  | nil => simp [insertSorted]
  | cons x xs ih =>
    unfold insertSorted
    split
    · simp
    · simp only [List.mem_cons, ih]
      tauto

theorem mem_sortByTime {a : MergedRecord} :
    ∀ {l : List MergedRecord}, a ∈ sortByTime l ↔ a ∈ l := by
  intro l
  induction l with
  | nil => simp [sortByTime]
  | cons x xs ih =>
    show a ∈ insertSorted x (sortByTime xs) ↔ _
    rw [mem_insertSorted]
    simp [ih]

/-- Every row of the seeding fold has `sim = none` and a timestamp coming
from `data` (or from the accumulator). -/
theorem seed_fold_inv (data : List RealPoint) :
    ∀ (m : List MergedRecord),
      (∀ r ∈ m, r.sim = none ∧ (r.time ∈ m.map MergedRecord.time)) →
      ∀ r ∈ data.foldl (fun m p => mapSet m ⟨p.tISO, p.value, none⟩) m,
        r.sim = none ∧ (r.time ∈ (m.map MergedRecord.time) ∨ r.time ∈ data.map RealPoint.tISO) := by
  induction data with
  | nil =>
    intro m hm r hr
    exact ⟨(hm r hr).1, Or.inl (hm r hr).2⟩
  | cons p ps ih =>
    intro m hm r hr
    simp only [List.foldl_cons] at hr
    have hstep : ∀ s ∈ mapSet m ⟨p.tISO, p.value, none⟩,
        s.sim = none ∧ s.time ∈ (mapSet m ⟨p.tISO, p.value, none⟩).map MergedRecord.time := by
      intro s hs
      refine ⟨?_, List.mem_map.2 ⟨s, hs, rfl⟩⟩
      rcases mem_mapSet hs with h' | h'
      · exact (hm s h').1
      · rw [h']
    have := ih (mapSet m ⟨p.tISO, p.value, none⟩) hstep r hr
    rcases this with ⟨hsim, htime⟩
    refine ⟨hsim, ?_⟩
    rcases htime with ht | ht
    · rcases List.mem_map.1 ht with ⟨s, hs, hst⟩
      rcases mem_mapSet hs with h' | h'
      · exact Or.inl (hst ▸ List.mem_map.2 ⟨s, h', rfl⟩)
      · subst h'; exact Or.inr (hst ▸ by simp)
    · exact Or.inr (by simp [ht])

theorem mergedSeed_inv (data : List RealPoint) :
    ∀ r ∈ mergedSeed data,
      r.sim = none ∧ r.time ∈ data.map RealPoint.tISO := by
  intro r hr
  have := seed_fold_inv data [] (by intro r hr; cases hr) r hr
  rcases this with ⟨hsim, htime⟩
  refine ⟨hsim, ?_⟩
  rcases htime with ht | ht
  · simp at ht
  · exact ht

theorem filteredOverlay_mem {overlay : List OverlayPoint}
    {data : List RealPoint} {w : TimeWindow} {q : OverlayPoint}
    (h : q ∈ filteredOverlay overlay data w) : q.time ∈ realTimes data w := by
  unfold filteredOverlay at h
  split at h
  · cases h
  · exact of_decide_eq_true (List.mem_filter.1 h).2

theorem overlay_fold_sim_none (T : ℤ) :
    ∀ (l : List OverlayPoint) (m : List MergedRecord),
      (∀ q ∈ l, q.time ≠ T) →
      (∀ r ∈ m, r.time = T → r.sim = none) →
      ∀ r ∈ l.foldl (fun m q => setSim m q.time q.value) m,
        r.time = T → r.sim = none := by
  intro l
  induction l with
  | nil => intro m _ hm r hr; exact hm r hr
  | cons q qs ih =>
    intro m hl hm r hr
    simp only [List.foldl_cons] at hr
    refine ih _ (fun x hx => hl x (List.mem_cons_of_mem _ hx)) ?_ r hr
    intro s hs hsT
    rcases mem_setSim hs with ⟨e, he, hse, hcase⟩
    rcases hcase with he' | ⟨het, he'⟩
    · have heT : e.time = T := by rw [← hse]; exact hsT
      rw [he']; exact hm e he heT
    · have : q.time = T := het.symm.trans (hse.symm.trans hsT)
      exact absurd this (hl q (List.mem_cons_self q qs))

theorem overlay_fold_time_ne (T : ℤ) :
    ∀ (l : List OverlayPoint) (m : List MergedRecord),
      (∀ r ∈ m, r.time ≠ T) →
      ∀ r ∈ l.foldl (fun m q => setSim m q.time q.value) m, r.time ≠ T := by
  intro l
  induction l with
  | nil => intro m hm r hr; exact hm r hr
  | cons q qs ih =>
    intro m hm r hr
    simp only [List.foldl_cons] at hr
    refine ih _ ?_ r hr
    intro s hs
    rcases mem_setSim hs with ⟨e, he, hse, _⟩
    rw [hse]; exact hm e he

/-- Claim `C1` (amended): an overlay point whose timestamp is not the timestamp of
a real point inside the window is discarded by the exact-match filter and
never populates `sim` of any merged row (no interpolation, no snapping);
moreover, when the real series itself has no point at that timestamp — in
particular whenever every loaded real point lies inside the window — the
merged output has no row at that timestamp at all. -/
theorem C1_overlay_exact_match (overlay : List OverlayPoint)
    (data : List RealPoint) (w : TimeWindow) (p : OverlayPoint)
    (hT : p.time ∉ realTimes data w) :
    p ∉ filteredOverlay overlay data w
    ∧ (∀ r ∈ merged data overlay w, r.time = p.time → r.sim = none)
    ∧ ((∀ q ∈ data, q.tISO ≠ p.time) →
        ∀ r ∈ merged data overlay w, r.time ≠ p.time) := by
  refine ⟨?_, ?_, ?_⟩
  · intro hmem
    exact hT (filteredOverlay_mem hmem)
  · intro r hr
    rw [merged, mem_sortByTime] at hr
    refine overlay_fold_sim_none p.time _ _ ?_ ?_ r hr
    · intro q hq hqT
      exact hT (hqT ▸ filteredOverlay_mem hq)
    · intro s hs _
      exact (mergedSeed_inv data s hs).1
  · intro hdata r hr
    rw [merged, mem_sortByTime] at hr
    refine overlay_fold_time_ne p.time _ _ ?_ r hr
    intro s hs
    have := (mergedSeed_inv data s hs).2
    rcases List.mem_map.1 this with ⟨q, hq, hqt⟩
    rw [← hqt]
    exact hdata q hq

/-- Witness for `C1_overlay_exact_match`: the spec's own scenario — real
points at 10:00 (instant 0) and 10:05 (instant 5) inside the window, an
overlay point at 10:03 (instant 3): it is filtered out, `sim` is `null` on
both rows, and no row exists at instant 3. -/
theorem C1_overlay_exact_match_witness :
    (⟨3, some 4⟩ : OverlayPoint) ∉
        filteredOverlay [⟨3, some 4⟩] [⟨0, some 3⟩, ⟨5, some 2⟩] ⟨0, 5⟩
    ∧ (∀ r ∈ merged [⟨0, some 3⟩, ⟨5, some 2⟩] [⟨3, some 4⟩] ⟨0, 5⟩,
        r.time = (⟨3, some 4⟩ : OverlayPoint).time → r.sim = none)
    ∧ ((∀ q ∈ [(⟨0, some 3⟩ : RealPoint), ⟨5, some 2⟩],
          q.tISO ≠ (⟨3, some 4⟩ : OverlayPoint).time) →
        ∀ r ∈ merged [⟨0, some 3⟩, ⟨5, some 2⟩] [⟨3, some 4⟩] ⟨0, 5⟩,
          r.time ≠ (⟨3, some 4⟩ : OverlayPoint).time) :=
  C1_overlay_exact_match [⟨3, some 4⟩] [⟨0, some 3⟩, ⟨5, some 2⟩] ⟨0, 5⟩
    ⟨3, some 4⟩ (by decide)

/-- Counterexample to `C1` as stated: the merged output is seeded from every
loaded real point, not only from the in-window ones.  With a real point at
instant 100 outside the window `[0, 50]` and an overlay point at 100, the
overlay timestamp matches no real point inside the window, yet the merged
output does contain a record at timestamp 100 (the claim says it contains
none). -/
theorem C1_counterexample :
    (100 : ℤ) ∉ realTimes [⟨100, some 3⟩] ⟨0, 50⟩
    ∧ ∃ r ∈ merged [⟨100, some 3⟩] [⟨100, some 4⟩] ⟨0, 50⟩, r.time = 100 :=
  ⟨by decide, ⟨⟨100, some 3, none⟩, by decide, rfl⟩⟩

theorem length_insertSorted (r : MergedRecord) :
    ∀ (l : List MergedRecord), (insertSorted r l).length = l.length + 1 := by
  intro l
  induction l with
  | nil => rfl
  | cons x xs ih =>
    unfold insertSorted
    split
    · rfl
    · simp [ih]

theorem length_sortByTime :
    ∀ (l : List MergedRecord), (sortByTime l).length = l.length := by
  intro l
  induction l with
  | nil => rfl
  | cons x xs ih =>
    show (insertSorted x (sortByTime xs)).length = xs.length + 1
    rw [length_insertSorted, ih]

theorem length_overlay_fold :
    ∀ (l : List OverlayPoint) (m : List MergedRecord),
      (l.foldl (fun m q => setSim m q.time q.value) m).length = m.length := by
  intro l
  induction l with
  | nil => intro m; rfl
  | cons q qs ih =>
    intro m
    simp only [List.foldl_cons]
    rw [ih]
    exact List.length_map _ _

/-- When the incoming timestamps are fresh and mutually distinct, the
seeding fold only ever appends, producing one row per data point in order. -/
theorem foldl_mapSet_fresh :
    ∀ (data : List RealPoint) (acc : List MergedRecord),
      (data.map RealPoint.tISO).Nodup →
      (∀ r ∈ acc, r.time ∉ data.map RealPoint.tISO) →
      data.foldl (fun m p => mapSet m ⟨p.tISO, p.value, none⟩) acc
        = acc ++ data.map (fun p => ⟨p.tISO, p.value, none⟩) := by
  intro data
  induction data with
  | nil => intro acc _ _; simp
  | cons p ps ih =>
    intro acc hnd hacc
    simp only [List.foldl_cons]
    have hany : acc.any (fun e => e.time = p.tISO) = false := by
      rw [List.any_eq_false]
      intro e he
      have := hacc e he
      simp only [List.map_cons, List.mem_cons] at this
      simpa using fun h => this (Or.inl h)
    have hstep : mapSet acc ⟨p.tISO, p.value, none⟩
        = acc ++ [⟨p.tISO, p.value, none⟩] := by
      unfold mapSet
      rw [if_neg]
      simp only [hany, Bool.false_eq_true, not_false_eq_true]
    have hnd2 : p.tISO ∉ ps.map RealPoint.tISO ∧ (ps.map RealPoint.tISO).Nodup := by
      rw [List.map_cons, List.nodup_cons] at hnd
      exact hnd
    have hacc' : ∀ r ∈ acc ++ [(⟨p.tISO, p.value, none⟩ : MergedRecord)],
        r.time ∉ ps.map RealPoint.tISO := by
      intro r hr
      rcases List.mem_append.1 hr with h' | h'
      · intro hmem
        exact hacc r h' (by simp [hmem])
      · rcases List.mem_singleton.1 h' with rfl
        exact hnd2.1
    rw [hstep, ih _ hnd2.2 hacc']
    simp

theorem mergedSeed_eq_of_nodup (data : List RealPoint)
    (hnd : (data.map RealPoint.tISO).Nodup) :
    mergedSeed data = data.map (fun p => ⟨p.tISO, p.value, none⟩) := by
  have := foldl_mapSet_fresh data [] hnd (by intro r hr; cases hr)
  simpa [mergedSeed] using this

theorem mapSet_times (m : List MergedRecord) (r : MergedRecord) :
    (mapSet m r).map MergedRecord.time
      = if r.time ∈ m.map MergedRecord.time then m.map MergedRecord.time
        else m.map MergedRecord.time ++ [r.time] := by
  by_cases h : r.time ∈ m.map MergedRecord.time
  · have hany : (m.any fun e => e.time = r.time) = true := by
      rw [List.any_eq_true]
      rcases List.mem_map.1 h with ⟨e, he, ht⟩
      exact ⟨e, he, by simpa using ht⟩
    rw [if_pos h]
    unfold mapSet
    rw [if_pos hany, List.map_map]
    apply List.map_congr_left
    intro e _
    by_cases het : e.time = r.time
    · simp [het]
    · simp [het]
  · have hany : (m.any fun e => e.time = r.time) = false := by
      rw [List.any_eq_false]
      intro e he hp
      exact h (List.mem_map.2 ⟨e, he, by simpa using hp⟩)
    rw [if_neg h]
    unfold mapSet
    rw [if_neg (by simp [hany])]
    simp

/-- The timestamps of the seeding fold are exactly the distinct timestamps
of the accumulator and the processed data, with no duplicates. -/
theorem mergedSeed_fold_times :
    ∀ (data : List RealPoint) (m : List MergedRecord),
      (m.map MergedRecord.time).Nodup →
      ((data.foldl (fun m p => mapSet m ⟨p.tISO, p.value, none⟩) m).map
          MergedRecord.time).Nodup
      ∧ (∀ t : ℤ,
          t ∈ (data.foldl (fun m p => mapSet m ⟨p.tISO, p.value, none⟩) m).map
              MergedRecord.time
            ↔ t ∈ m.map MergedRecord.time ∨ t ∈ data.map RealPoint.tISO) := by
  intro data
  induction data with
  | nil =>
    intro m hm
    exact ⟨hm, by simp⟩
  | cons p ps ih =>
    intro m hm
    simp only [List.foldl_cons]
    have hstep := mapSet_times m ⟨p.tISO, p.value, none⟩
    by_cases hmem : p.tISO ∈ m.map MergedRecord.time
    · rw [if_pos hmem] at hstep
      have hnd' : ((mapSet m ⟨p.tISO, p.value, none⟩).map MergedRecord.time).Nodup := by
        rw [hstep]; exact hm
      rcases ih (mapSet m ⟨p.tISO, p.value, none⟩) hnd' with ⟨h1, h2⟩
      refine ⟨h1, ?_⟩
      intro t
      rw [h2 t, hstep]
      simp only [List.map_cons, List.mem_cons]
      constructor
      · rintro (h | h)
        · exact Or.inl h
        · exact Or.inr (Or.inr h)
      · rintro (h | h | h)
        · exact Or.inl h
        · exact Or.inl (h ▸ hmem)
        · exact Or.inr h
    · rw [if_neg hmem] at hstep
      have hnd' : ((mapSet m ⟨p.tISO, p.value, none⟩).map MergedRecord.time).Nodup := by
        rw [hstep]
        simp [List.nodup_append, hm, hmem]
      rcases ih (mapSet m ⟨p.tISO, p.value, none⟩) hnd' with ⟨h1, h2⟩
      refine ⟨h1, ?_⟩
      intro t
      rw [h2 t, hstep]
      simp only [List.mem_append, List.mem_singleton, List.map_cons,
        List.mem_cons]
      tauto

/-- The seeding fold emits one row per distinct timestamp of the loaded
series: its length is the cardinality of the set of loaded timestamps. -/
theorem mergedSeed_length (data : List RealPoint) :
    (mergedSeed data).length = (data.map RealPoint.tISO).toFinset.card := by
  rcases mergedSeed_fold_times data [] (by simp) with ⟨hnd, hmem⟩
  have hm : ∀ t : ℤ, t ∈ (mergedSeed data).map MergedRecord.time
      ↔ t ∈ data.map RealPoint.tISO := by
    intro t
    rw [show (mergedSeed data).map MergedRecord.time
        = (data.foldl (fun m p => mapSet m ⟨p.tISO, p.value, none⟩) []).map
            MergedRecord.time from rfl, hmem t]
    simp
  have hfin : ((mergedSeed data).map MergedRecord.time).toFinset
      = (data.map RealPoint.tISO).toFinset := by
    apply Finset.ext
    intro t
    simp only [List.mem_toFinset]
    exact hm t
  calc (mergedSeed data).length
      = ((mergedSeed data).map MergedRecord.time).length :=
        (List.length_map _ _).symm
    _ = ((mergedSeed data).map MergedRecord.time).toFinset.card :=
        (List.toFinset_card_of_nodup hnd).symm
    _ = (data.map RealPoint.tISO).toFinset.card := by rw [hfin]

/-- Claim `C2` (amended): the number of merged rows equals the number of
distinct timestamps in the loaded real series — unconditionally, duplicates
collapsing through the `Map` and out-of-window points included; in
particular, when every loaded real point lies inside the active window and
the timestamps are pairwise distinct, it equals the count of real points
inside the window, regardless of the overlay. -/
theorem C2_merged_length (data : List RealPoint) (overlay : List OverlayPoint)
    (w : TimeWindow) :
    (merged data overlay w).length = (data.map RealPoint.tISO).toFinset.card
    ∧ ((data.map RealPoint.tISO).Nodup →
        (∀ p ∈ data, inWindow w p.tISO = true) →
        (merged data overlay w).length
          = (data.filter (fun p => inWindow w p.tISO)).length) := by
  have hlen : (merged data overlay w).length = (mergedSeed data).length := by
    rw [merged, length_sortByTime, length_overlay_fold]
  constructor
  · rw [hlen, mergedSeed_length]
  · intro hnd hin
    have hfil : data.filter (fun p => inWindow w p.tISO) = data :=
      List.filter_eq_self.mpr (by intro a ha; exact hin a ha)
    rw [hfil, hlen, mergedSeed_eq_of_nodup data hnd, List.length_map]

/-- Witness for `C2_merged_length`: a series with a duplicate timestamp
(0, 0, 5) merges to 2 rows — the number of distinct timestamps; and two
in-window points with distinct timestamps under an overlay of three points
merge to exactly the two in-window rows. -/
theorem C2_merged_length_witness :
    ((merged [⟨0, some 3⟩, ⟨0, some 2⟩, ⟨5, some 1⟩] [] ⟨0, 5⟩).length
      = ([(⟨0, some 3⟩ : RealPoint), ⟨0, some 2⟩, ⟨5, some 1⟩].map
          RealPoint.tISO).toFinset.card)
    ∧ (merged [⟨0, some 3⟩, ⟨0, some 2⟩, ⟨5, some 1⟩] [] ⟨0, 5⟩).length = 2
    ∧ ((merged [⟨0, some 3⟩, ⟨5, some 2⟩] [⟨0, some 4⟩, ⟨3, some 1⟩, ⟨9, some 5⟩]
        ⟨0, 5⟩).length
      = ([(⟨0, some 3⟩ : RealPoint), ⟨5, some 2⟩].filter
          (fun p => inWindow ⟨0, 5⟩ p.tISO)).length) :=
  ⟨(C2_merged_length [⟨0, some 3⟩, ⟨0, some 2⟩, ⟨5, some 1⟩] [] ⟨0, 5⟩).1,
   by decide,
   (C2_merged_length [⟨0, some 3⟩, ⟨5, some 2⟩]
      [⟨0, some 4⟩, ⟨3, some 1⟩, ⟨9, some 5⟩] ⟨0, 5⟩).2 (by decide) (by decide)⟩

/-- Counterexample to `C2` as stated: a loaded real point outside the active
window still produces a merged row, so the output length (1) differs from
the count of real points inside the window (0). -/
theorem C2_counterexample :
    (merged [⟨100, some 3⟩] [] ⟨0, 50⟩).length = 1
    ∧ ([(⟨100, some 3⟩ : RealPoint)].filter
        (fun p => inWindow ⟨0, 50⟩ p.tISO)).length = 0 := by
  constructor
  · rfl
  · rfl

/-! ## OverlayLoader (MetricsChart.jsx lines 179–202) -/

/-- An element of the `json.forecast` array: `ts` is the absolute timestamp
used in `absolute_ts` mode (as its parsed instant), `minute` the minute
offset used otherwise (`none` models an absent/`null` field, turned into `0`
by `it.minute || 0`), `value` the raw forecast value. -/
structure ForecastItem where
  ts : ℤ
  minute : Option ℤ
  value : JsVal
deriving DecidableEq, Repr

/-- The successful body of `loadOverlay` (lines 184–195):
`mode = json.forecast_mode || "minutes_ahead"`; in `absolute_ts` mode each
point keeps its own `ts` verbatim, otherwise a single `nowMs = Date.now()`
is captured before the map and each point gets
`new Date(nowMs + (it.minute || 0) * 60 * 1000).toISOString()`; values go
through `normalizeDiscrete` in both modes. -/
def loadOverlayPoints (forecastMode : Option String)
    (forecast : List ForecastItem) (nowMs : ℤ) : List OverlayPoint :=
  let mode := match forecastMode with
    | some s => if s = "" then "minutes_ahead" else s
    | none => "minutes_ahead"
  if mode = "absolute_ts" then
    forecast.map (fun it => ⟨it.ts, normalizeDiscrete it.value⟩)
  else
    forecast.map (fun it =>
      ⟨nowMs + (it.minute.getD 0) * 60 * 1000, normalizeDiscrete it.value⟩)

/-- Claim `C3`: OverlayLoader time-encoding normalization — in `minutes_ahead`
mode (also the default when the flag is absent) every produced point's
absolute timestamp is the single wall-clock instant `nowMs` captured at load
time plus the point's minute offset times 60000 ms; in `absolute_ts` mode
each point's own timestamp is used verbatim.  The conversion is a function
of the one `nowMs` captured per load call, so the timestamps are fixed
thereafter. -/
theorem C3_overlay_time_encoding (forecast : List ForecastItem) (nowMs : ℤ) :
    loadOverlayPoints (some "minutes_ahead") forecast nowMs
        = forecast.map (fun it =>
            ⟨nowMs + (it.minute.getD 0) * 60000, normalizeDiscrete it.value⟩)
    ∧ loadOverlayPoints none forecast nowMs
        = forecast.map (fun it =>
            ⟨nowMs + (it.minute.getD 0) * 60000, normalizeDiscrete it.value⟩)
    ∧ loadOverlayPoints (some "absolute_ts") forecast nowMs
        = forecast.map (fun it => ⟨it.ts, normalizeDiscrete it.value⟩)
    ∧ (∀ p ∈ loadOverlayPoints (some "minutes_ahead") forecast nowMs,
        ∃ it ∈ forecast, p.time = nowMs + (it.minute.getD 0) * 60000)
    ∧ (∀ p ∈ loadOverlayPoints (some "absolute_ts") forecast nowMs,
        ∃ it ∈ forecast, p.time = it.ts) := by
  have h60 : ∀ m : ℤ, m * 60 * 1000 = m * 60000 := by intro m; ring
  refine ⟨?_, ?_, rfl, ?_, ?_⟩
  · simp only [loadOverlayPoints]
    norm_num
    apply List.map_congr_left
    intro it _
    rw [h60]
  · simp only [loadOverlayPoints]
    apply List.map_congr_left
    intro it _
    rw [h60]
  · intro p hp
    simp only [loadOverlayPoints] at hp
    norm_num at hp
    rcases List.mem_map.1 hp with ⟨it, hit, hm⟩
    exact ⟨it, hit, by rw [← hm, h60]⟩
  · intro p hp
    rcases List.mem_map.1 hp with ⟨it, hit, hm⟩
    exact ⟨it, hit, by rw [← hm]⟩

/-- Witness for `C3_overlay_time_encoding`: a forecast item with minute
offset 5 loaded at instant 777 gets the fixed absolute timestamp
`777 + 5·60000`. -/
theorem C3_overlay_time_encoding_witness :
    ∃ it ∈ [(⟨1000, some 5, JsVal.jnum (.fin 3)⟩ : ForecastItem)],
      (OverlayPoint.mk (777 + 5 * 60000) (some 3)).time
        = 777 + (it.minute.getD 0) * 60000 := by
  have h3 : normalizeDiscrete (.jnum (.fin 3)) = some 3 := by
    rw [normalizeDiscrete_fin]
    norm_num [jsRound]
  refine (C3_overlay_time_encoding [⟨1000, some 5, .jnum (.fin 3)⟩] 777).2.2.2.1
    ⟨777 + 5 * 60000, some 3⟩ ?_
  rw [(C3_overlay_time_encoding [⟨1000, some 5, .jnum (.fin 3)⟩] 777).1]
  simp [h3]

/-! ## DetailResolver: by-date lookup with nearest-to-noon fallback
(`fetchAdviceByDate`, src/unnamed/part_004 lines 268–314) -/

/-- A raw series point `{t, v}` from `/metrics/series`; `t : none` models a
missing/falsy `t` field (dropped by `.filter(p => p?.t)`). -/
structure RawPoint where
  t : Option ℤ
  v : JsVal
deriving DecidableEq, Repr

/-- A series point that survived the truthiness filter. -/
structure SeriesPoint where
  t : ℤ
  v : JsVal
deriving DecidableEq, Repr

/-- The filter `(j2.points || []).filter(p => p?.t)`. -/
def adviceSeriesPoints (raw : List RawPoint) : List SeriesPoint :=
  raw.filterMap (fun p => p.t.map (fun tv => ⟨tv, p.v⟩))

/-- The distance `Math.abs(new Date(p.t).getTime() - noon)`. -/
def distTo (noon : ℤ) (p : SeriesPoint) : ℕ := (p.t - noon).natAbs

/-- The loop body `if (d < bestDiff) { best = p; bestDiff = d; }`. -/
def stepMin (f : SeriesPoint → ℕ) (acc : SeriesPoint × ℕ) (p : SeriesPoint) :
    SeriesPoint × ℕ :=
  if f p < acc.2 then (p, f p) else acc

/-- The nearest-to-noon selection (part_004 lines 298–305): start from
`points[0]`, scan all points, keep a strictly closer point. -/
def nearestToNoon (noon : ℤ) (points : List SeriesPoint) : Option SeriesPoint :=
  match points with
  | [] => none
  | p0 :: _ =>
    some ((points.foldl (stepMin (distTo noon)) (p0, distTo noon p0)).1)

/-- The observable outcome of `fetchAdviceByDate`. -/
inductive ByDateOutcome where
  | openedDetail (ts : Option ℤ)
  | noDataForDate
  | loadError (msg : String)
deriving DecidableEq, Repr

/-- The response of the `by_date` detail endpoint: a hit carries `j1.ts`
(possibly absent), a miss is any non-ok response. -/
inductive ByDateResp where
  | hit (ts : Option ℤ)
  | miss
deriving DecidableEq, Repr

/-- Function `fetchAdviceByDate` (part_004 lines 268–314) as a function of the
by-date response, the full-day series response and the local-noon instant:
a by-date hit opens the detail at `j1.ts`; on a miss, a failed series load
surfaces the server error; zero day points yield the no-data warning;
otherwise the point nearest to noon is selected and its detail opened. -/
def fetchAdviceByDate (byDate : ByDateResp)
    (seriesResp : Except String (List RawPoint)) (noon : ℤ) : ByDateOutcome :=
  match byDate with
  | .hit ts => .openedDetail ts
  | .miss =>
    match seriesResp with
    | .error e => .loadError e
    | .ok raw =>
      match nearestToNoon noon (adviceSeriesPoints raw) with
      | none => .noDataForDate
      | some best => .openedDetail (some best.t)

theorem foldl_stepMin_spec (f : SeriesPoint → ℕ) :
    ∀ (l : List SeriesPoint) (acc : SeriesPoint × ℕ), acc.2 = f acc.1 →
      (l.foldl (stepMin f) acc).2 = f (l.foldl (stepMin f) acc).1
      ∧ (l.foldl (stepMin f) acc).2 ≤ acc.2
      ∧ (∀ y ∈ l, (l.foldl (stepMin f) acc).2 ≤ f y)
      ∧ (l.foldl (stepMin f) acc = acc
          ∨ ((l.foldl (stepMin f) acc).2 < acc.2
              ∧ ∃ l1 l2, l = l1 ++ (l.foldl (stepMin f) acc).1 :: l2
                ∧ ∀ y ∈ l1, (l.foldl (stepMin f) acc).2 < f y)) := by
  intro l
  induction l with
  | nil =>
    intro acc hacc
    refine ⟨hacc, le_refl _, ?_, Or.inl rfl⟩
    intro y hy
    cases hy
  | cons p t ih =>
    intro acc hacc
    simp only [List.foldl_cons]
    by_cases hcmp : f p < acc.2
    · have hstep : stepMin f acc p = (p, f p) := by
        unfold stepMin; rw [if_pos hcmp]
      rw [hstep]
      rcases ih (p, f p) rfl with ⟨h1, h2, h3, h4⟩
      refine ⟨h1, le_of_lt (lt_of_le_of_lt h2 hcmp), ?_, ?_⟩
      · intro y hy
        rcases List.mem_cons.1 hy with rfl | hy'
        · exact h2
        · exact h3 y hy'
      · rcases h4 with heq | ⟨hlt, l1, l2, hsplit, hl1⟩
        · refine Or.inr ⟨by rw [heq]; exact hcmp, [], t, ?_, ?_⟩
          · simp [heq]
          · intro y hy; cases hy
        · refine Or.inr ⟨lt_trans hlt hcmp, p :: l1, l2,
            by rw [List.cons_append, ← hsplit], ?_⟩
          intro y hy
          rcases List.mem_cons.1 hy with rfl | hy'
          · exact hlt
          · exact hl1 y hy'
    · have hstep : stepMin f acc p = acc := by
        unfold stepMin; rw [if_neg hcmp]
      rw [hstep]
      rcases ih acc hacc with ⟨h1, h2, h3, h4⟩
      refine ⟨h1, h2, ?_, ?_⟩
      · intro y hy
        rcases List.mem_cons.1 hy with rfl | hy'
        · exact le_trans h2 (by rw [hacc] at hcmp ⊢; omega)
        · exact h3 y hy'
      · rcases h4 with heq | ⟨hlt, l1, l2, hsplit, hl1⟩
        · exact Or.inl heq
        · refine Or.inr ⟨hlt, p :: l1, l2,
            by rw [List.cons_append, ← hsplit], ?_⟩
          intro y hy
          rcases List.mem_cons.1 hy with rfl | hy'
          · exact lt_of_lt_of_le hlt (by rw [hacc]; omega)
          · exact hl1 y hy'

theorem nearestToNoon_spec (noon : ℤ) (pts : List SeriesPoint)
    (h : pts ≠ []) :
    ∃ b l1 l2, nearestToNoon noon pts = some b
      ∧ pts = l1 ++ b :: l2
      ∧ (∀ y ∈ pts, distTo noon b ≤ distTo noon y)
      ∧ (∀ y ∈ l1, distTo noon b < distTo noon y) := by
  rcases pts with _ | ⟨p0, rest⟩
  · exact absurd rfl h
  rcases foldl_stepMin_spec (distTo noon) (p0 :: rest) (p0, distTo noon p0)
    rfl with ⟨h1, _, h3, h4⟩
  refine ⟨((p0 :: rest).foldl (stepMin (distTo noon)) (p0, distTo noon p0)).1,
    ?_⟩
  rcases h4 with heq | ⟨_, l1, l2, hsplit, hl1⟩
  · refine ⟨[], rest, rfl, by simp [heq], ?_, by intro y hy; cases hy⟩
    intro y hy
    rw [← h1]
    exact h3 y hy
  · refine ⟨l1, l2, rfl, hsplit, ?_, ?_⟩
    · intro y hy
      rw [← h1]
      exact h3 y hy
    · intro y hy
      rw [← h1]
      exact hl1 y hy

/-- Claim `C4`: nearest-to-reference fallback — on a by-date miss with a non-empty
day series, the selected point minimizes the distance to local noon, and
every point strictly before it in source order is strictly farther (ties go
to the first point encountered); with zero day points the outcome is the
no-data warning, and a failed day fetch surfaces the error. -/
theorem C4_nearest_to_noon (raw : List RawPoint) (noon : ℤ) (e : String) :
    (adviceSeriesPoints raw = [] →
      fetchAdviceByDate .miss (.ok raw) noon = .noDataForDate)
    ∧ (adviceSeriesPoints raw ≠ [] →
      ∃ b l1 l2, fetchAdviceByDate .miss (.ok raw) noon = .openedDetail (some b.t)
        ∧ adviceSeriesPoints raw = l1 ++ b :: l2
        ∧ (∀ y ∈ adviceSeriesPoints raw, distTo noon b ≤ distTo noon y)
        ∧ (∀ y ∈ l1, distTo noon b < distTo noon y))
    ∧ fetchAdviceByDate .miss (.error e) noon = .loadError e := by
  refine ⟨?_, ?_, rfl⟩
  · intro h
    simp only [fetchAdviceByDate, h, nearestToNoon]
  · intro h
    rcases nearestToNoon_spec noon (adviceSeriesPoints raw) h with
      ⟨b, l1, l2, hb, hsplit, hmin, hfirst⟩
    exact ⟨b, l1, l2, by simp only [fetchAdviceByDate, hb], hsplit, hmin, hfirst⟩

/-- Witness for `C4_nearest_to_noon`: the spec scenario for `2024-03-05` —
day points at 08:00 (value 2) and 20:00 (value 4), local noon at 12:00
(times in ms of the day): the 08:00 point (distance 4 h) is selected over
the 20:00 point (distance 8 h). -/
theorem C4_nearest_to_noon_witness :
    adviceSeriesPoints [⟨some 28800000, .jnum (.fin 2)⟩,
        ⟨some 72000000, .jnum (.fin 4)⟩] ≠ []
    ∧ (∃ b l1 l2,
        fetchAdviceByDate .miss
            (.ok [⟨some 28800000, .jnum (.fin 2)⟩, ⟨some 72000000, .jnum (.fin 4)⟩])
            43200000 = .openedDetail (some b.t)
          ∧ adviceSeriesPoints [⟨some 28800000, .jnum (.fin 2)⟩,
              ⟨some 72000000, .jnum (.fin 4)⟩] = l1 ++ b :: l2
          ∧ (∀ y ∈ adviceSeriesPoints [⟨some 28800000, .jnum (.fin 2)⟩,
              ⟨some 72000000, .jnum (.fin 4)⟩],
              distTo 43200000 b ≤ distTo 43200000 y)
          ∧ (∀ y ∈ l1, distTo 43200000 b < distTo 43200000 y))
    ∧ fetchAdviceByDate .miss
        (.ok [⟨some 28800000, .jnum (.fin 2)⟩, ⟨some 72000000, .jnum (.fin 4)⟩])
        43200000 = .openedDetail (some 28800000) :=
  ⟨by decide,
   (C4_nearest_to_noon [⟨some 28800000, .jnum (.fin 2)⟩,
      ⟨some 72000000, .jnum (.fin 4)⟩] 43200000 "").2.1 (by decide),
   by decide⟩

/-! ## Window selection and series loading (MetricsChart.jsx lines 112–252)

`load()` builds the request URL from the current `mode`/`relMinutes`/
`absFrom`/`absTo` state; `applyAbsolute` (lines 248–252) validates
`absFrom < absTo` before calling `load()`; the effect at lines 204–213
calls `load()` whenever `metric`, `mode`, `relMinutes`, `absFrom.getTime()`
or `absTo.getTime()` changes — with no validation. -/

/-- The range part of a `/metrics/series` request URL. -/
inductive RangeQuery where
  | minutes (n : ℤ)
  | window (fromMs toMs : ℤ)
deriving DecidableEq, Repr

/-- A series-load request as issued by `load()`. -/
structure LoadRequest where
  metric : String
  query : RangeQuery
deriving DecidableEq, Repr

/-- The chart mode toggle. -/
inductive Mode where
  | relative
  | absolute
deriving DecidableEq, Repr

/-- The component state relevant to window selection. -/
structure ChartState where
  metric : String
  mode : Mode
  relMinutes : ℤ
  absFrom : ℤ
  absTo : ℤ
  err : String
deriving DecidableEq, Repr

/-- The request `load()` issues from the current state (lines 159–166):
`from`/`to` in absolute mode, `minutes` in relative mode.  `load()` also
clears `err` first (line 157). -/
def mkLoadRequest (s : ChartState) : LoadRequest :=
  match s.mode with
  | .absolute => ⟨s.metric, .window s.absFrom s.absTo⟩
  | .relative => ⟨s.metric, .minutes s.relMinutes⟩

/-- The error message set by `applyAbsolute` on an invalid window (the JS
string quotes the two field names desde and hasta; the quotes are left out
here). -/
def invalidWindowMsg : String := "El desde debe ser anterior al hasta."

/-- Function `applyAbsolute` (lines 248–252): reject `absFrom ≥ absTo` with an error
and no load; otherwise call `load()`. -/
def applyAbsolute (s : ChartState) : ChartState × List LoadRequest :=
  if s.absFrom ≥ s.absTo then ({ s with err := invalidWindowMsg }, [])
  else ({ s with err := "" }, [mkLoadRequest s])

/-- The user/UI events that drive window selection: the Aplicar button, the
two datetime fields (lines 424 and 435, `setAbsFrom`/`setAbsTo` directly on
change), the mode toggle and the relative-minutes select. -/
inductive ChartEvent where
  | applyClick
  | changeAbsFrom (t : ℤ)
  | changeAbsTo (t : ℤ)
  | changeMode (m : Mode)
  | changeRelMinutes (n : ℤ)
deriving DecidableEq, Repr

/-- One step of the component: the event's state update, plus the load the
effect at lines 204–213 issues because one of its dependencies changed
(React skips the effect when the updated value is unchanged).  Note the
effect path performs no `absFrom < absTo` validation. -/
def stepChart (s : ChartState) (e : ChartEvent) : ChartState × List LoadRequest :=
  match e with
  | .applyClick => applyAbsolute s
  | .changeAbsFrom t =>
    if t = s.absFrom then (s, [])
    else ({ s with absFrom := t, err := "" },
      [mkLoadRequest { s with absFrom := t }])
  | .changeAbsTo t =>
    if t = s.absTo then (s, [])
    else ({ s with absTo := t, err := "" },
      [mkLoadRequest { s with absTo := t }])
  | .changeMode m =>
    if m = s.mode then (s, [])
    else ({ s with mode := m, err := "" }, [mkLoadRequest { s with mode := m }])
  | .changeRelMinutes n =>
    if n = s.relMinutes then (s, [])
    else ({ s with relMinutes := n, err := "" },
      [mkLoadRequest { s with relMinutes := n }])

/-- Claim `C7` (amended): the Aplicar path does reject `from ≥ to` — it sets the
error message and issues no load — but only that path validates; loads
triggered by direct window-state changes are issued unvalidated. -/
theorem C7_apply_rejects_invalid (s : ChartState) (h : s.absFrom ≥ s.absTo) :
    stepChart s .applyClick = ({ s with err := invalidWindowMsg }, []) := by
  simp only [stepChart, applyAbsolute, if_pos h]

/-- Witness for `C7_apply_rejects_invalid` at a concrete state with
`from = 20 ≥ 10 = to`. -/
theorem C7_apply_rejects_invalid_witness :
    stepChart ⟨"sleep", .absolute, 60, 20, 10, ""⟩ .applyClick
      = (⟨"sleep", .absolute, 60, 20, 10, invalidWindowMsg⟩, []) :=
  C7_apply_rejects_invalid ⟨"sleep", .absolute, 60, 20, 10, ""⟩ (by decide)

/-- Counterexample to `C7` as stated: editing the `Desde` field to 20 while
`Hasta` is 10 fires the load effect, which issues a series request with
`from = 20 ≥ 10 = to` — a load is issued under an invalid window, without
any rejection. -/
theorem C7_counterexample :
    (stepChart ⟨"sleep", .absolute, 60, 0, 10, ""⟩ (.changeAbsFrom 20)).2
        = [⟨"sleep", .window 20 10⟩]
    ∧ (20 : ℤ) ≥ 10
    ∧ (stepChart ⟨"sleep", .absolute, 60, 0, 10, ""⟩ (.changeAbsFrom 20)).1.err
        = "" := by
  refine ⟨rfl, by norm_num, rfl⟩

/-! ## Series-load response handling (MetricsChart.jsx lines 156–177, 204–213)

`load()`'s success path ends in `setData(points)` unconditionally: there is
no generation counter or ignore flag, so whichever response resolves last is
committed, regardless of when its request was issued.  (The repository does
use a `let ignore` flag in `usePermissions.js`, but not here.) -/

/-- The loader state: the requests issued so far in order, the committed
`data` slot, and which request produced it (bookkeeping for the statement;
the component itself keeps no such tag — that is the point). -/
structure SeriesLoadState where
  issued : List LoadRequest
  dataSlot : List RealPoint
  dataFrom : Option ℕ
deriving DecidableEq, Repr

/-- Network events: a request is issued (appended to `issued`), or the
response to the `i`-th issued request resolves with `points` — upon which
`setData(points)` runs unconditionally. -/
inductive NetEvent where
  | issue (r : LoadRequest)
  | resolve (i : ℕ) (points : List RealPoint)
deriving DecidableEq, Repr

/-- One network step of the series loader. -/
def stepNet (s : SeriesLoadState) (e : NetEvent) : SeriesLoadState :=
  match e with
  | .issue r => { s with issued := s.issued ++ [r] }
  | .resolve i pts =>
    if i < s.issued.length then { s with dataSlot := pts, dataFrom := some i }
    else s

/-- A run of the series loader over a trace of network events. -/
def runNet (s : SeriesLoadState) (tr : List NetEvent) : SeriesLoadState :=
  tr.foldl stepNet s

/-- Claim `C8` (amended): the displayed series data is simply that of whichever
response resolved last — every resolving in-flight response is committed
unconditionally, with no staleness guard; a run either leaves the displayed
data untouched or commits the points of some resolve event of the trace. -/
theorem C8_last_resolved_wins (s : SeriesLoadState) (tr : List NetEvent) :
    ((runNet s tr).dataSlot = s.dataSlot ∧ (runNet s tr).dataFrom = s.dataFrom)
    ∨ ∃ i pts, NetEvent.resolve i pts ∈ tr
        ∧ (runNet s tr).dataSlot = pts ∧ (runNet s tr).dataFrom = some i := by
  induction tr generalizing s with
  | nil => exact Or.inl ⟨rfl, rfl⟩
  | cons e rest ih =>
    have hrun : runNet s (e :: rest) = runNet (stepNet s e) rest := rfl
    rcases ih (stepNet s e) with ⟨h1, h2⟩ | ⟨i, pts, hmem, h1, h2⟩
    · rw [hrun] at *
      cases e with
      | issue r => exact Or.inl ⟨h1, h2⟩
      | resolve i pts =>
        by_cases hc : i < s.issued.length
        · refine Or.inr ⟨i, pts, List.mem_cons_self _ _, ?_, ?_⟩
          · rw [h1]; simp [stepNet, if_pos hc]
          · rw [h2]; simp [stepNet, if_pos hc]
        · refine Or.inl ⟨?_, ?_⟩
          · rw [h1]; simp [stepNet, if_neg hc]
          · rw [h2]; simp [stepNet, if_neg hc]
    · exact Or.inr ⟨i, pts, List.mem_cons_of_mem _ hmem, h1, h2⟩

/-- Counterexample to `C8` as stated: request 0 (window `[0, 10]`) and then
request 1 (window `[20, 30]`) are issued; the response to the newer request
1 resolves first, then the stale response to request 0 resolves — and is
committed, overwriting the newer data.  The final displayed data is that of
the superseded request. -/
theorem C8_counterexample :
    runNet ⟨[], [], none⟩
        [.issue ⟨"sleep", .window 0 10⟩,
         .issue ⟨"sleep", .window 20 30⟩,
         .resolve 1 [⟨25, some 4⟩],
         .resolve 0 [⟨5, some 2⟩]]
      = ⟨[⟨"sleep", .window 0 10⟩, ⟨"sleep", .window 20 30⟩],
         [⟨5, some 2⟩], some 0⟩ := by
  rfl

/-! ## FeatureFormatter (`formatFeatureValue`, MetricsChart.jsx lines 303–350)

The JS regexes all have the shape `(^|_)X$` with `X` ranging over finitely
many literal alternatives (the negative lookaheads `(?!(mm|mms?)$)` are
vacuous: after them the regex must match a single `m` at end-of-string, so
the lookahead can never see `mm`/`mms` there).  `(^|_)X$` holds of `k` iff
`k = X` or `k` ends with `"_" ++ X`; the unanchored tests
`/(millimeter|millimetre)/` and `/mm/` are substring tests.
The rendered strings are modelled structurally: `${x.toFixed(2)} m` as
`.metersStr x`, `${x.toFixed(3)} km` as `.kmStr x`, `String(value)` as
`.strOf value`, `JSON.stringify(value)` as `.jsonOf`, and `"—"` as `.dash`;
JS float division `num / 1000` is exact rational division here. -/

/-- The lower-cased key `String(key).toLowerCase()`, as a character list (strings are
handled through their character lists so that every matcher is structurally
recursive). -/
def lowerKey (s : String) : List Char := s.data.map Char.toLower

/-- Unanchored regex test for a literal pattern: `pat` occurs in `k`. -/
def hasSub (pat : List Char) : List Char → Bool
  | [] => pat.isEmpty
  | c :: rest => pat.isPrefixOf (c :: rest) || hasSub pat rest

/-- Anchored regex `(^|_)X$` for `X` in `alts`: the key equals an alternative or ends with
`"_"` followed by one. -/
def endsAnchored (alts : List String) (k : List Char) : Bool :=
  alts.any (fun a => k == a.data || ('_' :: a.data).isSuffixOf k)

/-- Alternatives of `dist(ance)?_?mm(s)?`. -/
def distMmAlts : List String :=
  ["distmm", "distmms", "dist_mm", "dist_mms",
   "distancemm", "distancemms", "distance_mm", "distance_mms"]

/-- Alternatives of `dist(ance)?_(?!(mm|mms?)$)m` (lookahead vacuous). -/
def distMAlts : List String := ["dist_m", "distance_m"]

/-- Alternatives of `dist(ance)?_?km`. -/
def distKmAlts : List String := ["distkm", "dist_km", "distancekm", "distance_km"]

/-- Alternatives of `distance` / `dist` (the two bare-key regexes). -/
def bareDistAlts : List String := ["distance", "dist"]

/-- The altitude-family words. -/
def altWords : List String :=
  ["altitude", "alt", "elevation", "ascent", "descent", "gain", "loss"]

/-- Alternatives of `(altitude|alt|elevation|ascent|descent|gain|loss)(_?mm(s)?)?`. -/
def altMmAlts : List String :=
  (altWords.map (fun w => [w, w ++ "mm", w ++ "mms", w ++ "_mm", w ++ "_mms"])).flatten

/-- Alternatives of `(altitude|...|loss)_(?!(mm|mms?)$)m` (lookahead vacuous). -/
def altMAlts : List String := altWords.map (fun w => w ++ "_m")

/-- Alternatives of `(altitude|...|loss)_?km`. -/
def altKmAlts : List String :=
  (altWords.map (fun w => [w ++ "km", w ++ "_km"])).flatten

/-- The bare altitude-family keys. -/
def bareAltAlts : List String := altWords

/-- A rendered feature value. -/
inductive Display where
  | dash
  | metersStr (q : ℚ)
  | kmStr (q : ℚ)
  | strOf (v : JsVal)
  | jsonOf (r : String)
deriving DecidableEq, Repr

/-- The `activity` branch chain of `formatFeatureValue` (lines 307–349):
the distance branches, then the altitude branches, tried in source order on
the lower-cased key `k`; each converts a finite `num = Number(value)` and
passes a non-finite one through as `String(value)`; an unrecognized key
passes through (objects as JSON). -/
def activityUnitChain (k : List Char) (value : JsVal) : Display :=
  let num := jsNumber value
  if endsAnchored distMmAlts k || hasSub "millimeter".data k
      || hasSub "millimetre".data k then
      match num with
      | .fin q => .metersStr (q / 1000)
      | _ => .strOf value
    else if endsAnchored distMAlts k then
      match num with
      | .fin q => .metersStr q
      | _ => .strOf value
    else if endsAnchored distKmAlts k then
      match num with
      | .fin q => .kmStr q
      | _ => .strOf value
    else if endsAnchored bareDistAlts k then
      match num with
      | .fin q =>
        if q > 10000 then .metersStr (q / 1000)
        else if q > 100 then .metersStr q
        else .kmStr q
      | _ => .strOf value
    else if endsAnchored altMmAlts k && hasSub "mm".data k then
      match num with
      | .fin q => .metersStr (q / 1000)
      | _ => .strOf value
    else if endsAnchored altMAlts k then
      match num with
      | .fin q => .metersStr q
      | _ => .strOf value
    else if endsAnchored altKmAlts k then
      match num with
      | .fin q => .kmStr q
      | _ => .strOf value
    else if endsAnchored bareAltAlts k then
      match num with
      | .fin q =>
        if q > 10000 then .metersStr (q / 1000)
        else if q > 100 then .metersStr q
        else .kmStr q
      | _ => .strOf value
    else
      match value with
      | .jobj r => .jsonOf r
      | _ => .strOf value

/-- Function `formatFeatureValue` (lines 303–350): `null` renders as a dash; outside
the `activity` metric everything passes through (objects as JSON); otherwise
the unit-conversion chain runs on the lower-cased key. -/
def formatFeatureValue (metric : String) (key : String) (value : JsVal) :
    Display :=
  if value = .jnull then .dash
  else if metric ≠ "activity" then
    match value with
    | .jobj r => .jsonOf r
    | _ => .strOf value
  else activityUnitChain (lowerKey key) value

/-- Disjunction of every branch guard of the `activity` unit-conversion
chain: a key is recognized iff some distance/altitude branch applies. -/
def recognizedActivityKey (k : List Char) : Bool :=
  endsAnchored distMmAlts k || hasSub "millimeter".data k
    || hasSub "millimetre".data k || endsAnchored distMAlts k
    || endsAnchored distKmAlts k || endsAnchored bareDistAlts k
    || (endsAnchored altMmAlts k && hasSub "mm".data k)
    || endsAnchored altMAlts k || endsAnchored altKmAlts k
    || endsAnchored bareAltAlts k

theorem formatFeatureValue_activity (key : String) (value : JsVal)
    (h : value ≠ .jnull) :
    formatFeatureValue "activity" key value
      = activityUnitChain (lowerKey key) value := by
  unfold formatFeatureValue
  rw [if_neg h, if_neg (fun hh => hh rfl)]

/-- Claim `C9`: FeatureFormatter unit heuristic (in the `activity` context) — a
bare distance/altitude key with no explicit unit suffix and a finite value
is treated as millimeters above 10000 (shown as `value/1000` meters), as
meters above 100, and as kilometers otherwise; the explicit `_mm` keys
(`tracker_total_distance_mm`, `tracker_total_altitude_mm`) are divided by
1000 and shown in meters; a non-numeric value under such a key passes
through as `String(value)`; an unrecognized key passes through, objects as
their JSON rendering. -/
theorem C9_activity_unit_heuristic :
    (∀ (key : String) (q : ℚ),
      endsAnchored bareDistAlts (lowerKey key) = true →
      endsAnchored distMmAlts (lowerKey key) = false →
      hasSub "millimeter".data (lowerKey key) = false →
      hasSub "millimetre".data (lowerKey key) = false →
      endsAnchored distMAlts (lowerKey key) = false →
      endsAnchored distKmAlts (lowerKey key) = false →
      formatFeatureValue "activity" key (.jnum (.fin q))
        = if q > 10000 then .metersStr (q / 1000)
          else if q > 100 then .metersStr q
          else .kmStr q)
    ∧ (∀ (key : String) (q : ℚ),
      endsAnchored bareAltAlts (lowerKey key) = true →
      endsAnchored distMmAlts (lowerKey key) = false →
      hasSub "millimeter".data (lowerKey key) = false →
      hasSub "millimetre".data (lowerKey key) = false →
      endsAnchored distMAlts (lowerKey key) = false →
      endsAnchored distKmAlts (lowerKey key) = false →
      endsAnchored bareDistAlts (lowerKey key) = false →
      hasSub "mm".data (lowerKey key) = false →
      endsAnchored altMAlts (lowerKey key) = false →
      endsAnchored altKmAlts (lowerKey key) = false →
      formatFeatureValue "activity" key (.jnum (.fin q))
        = if q > 10000 then .metersStr (q / 1000)
          else if q > 100 then .metersStr q
          else .kmStr q)
    ∧ (∀ q : ℚ,
      formatFeatureValue "activity" "tracker_total_distance_mm" (.jnum (.fin q))
        = .metersStr (q / 1000))
    ∧ (∀ q : ℚ,
      formatFeatureValue "activity" "tracker_total_altitude_mm" (.jnum (.fin q))
        = .metersStr (q / 1000))
    ∧ (∀ (key : String) (v : JsVal), v ≠ .jnull →
      (jsNumber v).isFinite = false →
      endsAnchored bareDistAlts (lowerKey key) = true →
      endsAnchored distMmAlts (lowerKey key) = false →
      hasSub "millimeter".data (lowerKey key) = false →
      hasSub "millimetre".data (lowerKey key) = false →
      endsAnchored distMAlts (lowerKey key) = false →
      endsAnchored distKmAlts (lowerKey key) = false →
      formatFeatureValue "activity" key v = .strOf v)
    ∧ (∀ (key : String) (v : JsVal), v ≠ .jnull →
      recognizedActivityKey (lowerKey key) = false →
      formatFeatureValue "activity" key v
        = match v with
          | .jobj r => .jsonOf r
          | _ => .strOf v) := by
  refine ⟨?_, ?_, ?_, ?_, ?_, ?_⟩
  · intro key q h1 h2 h3 h4 h5 h6
    rw [formatFeatureValue_activity key _ (fun hh => JsVal.noConfusion hh)]
    simp [activityUnitChain, jsNumber, h1, h2, h3, h4, h5, h6]
  · intro key q h1 h2 h3 h4 h5 h6 h7 h8 h9 h10
    rw [formatFeatureValue_activity key _ (fun hh => JsVal.noConfusion hh)]
    simp [activityUnitChain, jsNumber, h1, h2, h3, h4, h5, h6, h7, h8, h9, h10]
  · intro q
    rw [formatFeatureValue_activity _ _ (fun hh => JsVal.noConfusion hh)]
    simp only [activityUnitChain, jsNumber]
    rw [if_pos (by decide)]
  · intro q
    rw [formatFeatureValue_activity _ _ (fun hh => JsVal.noConfusion hh)]
    simp only [activityUnitChain, jsNumber]
    rw [if_neg (by decide), if_neg (by decide), if_neg (by decide),
      if_neg (by decide), if_pos (by decide)]
  · intro key v hv hfin h1 h2 h3 h4 h5 h6
    rw [formatFeatureValue_activity key _ hv]
    rcases hn : jsNumber v with _ | _ | _ | q
    · simp [activityUnitChain, hn, h1, h2, h3, h4, h5, h6]
    · simp [activityUnitChain, hn, h1, h2, h3, h4, h5, h6]
    · simp [activityUnitChain, hn, h1, h2, h3, h4, h5, h6]
    · rw [hn] at hfin; exact absurd hfin (by simp [JsNum.isFinite])
  · intro key v hv hrec
    rw [formatFeatureValue_activity key _ hv]
    simp only [recognizedActivityKey, Bool.or_eq_false_iff] at hrec
    obtain ⟨⟨⟨⟨⟨⟨⟨⟨⟨h1, h2⟩, h3⟩, h4⟩, h5⟩, h6⟩, h7⟩, h8⟩, h9⟩, h10⟩ := hrec
    simp [activityUnitChain, h1, h2, h3, h4, h5, h6, h7, h8, h9, h10]

/-- Witness for `C9_activity_unit_heuristic`: the bare key `"distance"`
with value 150 — above 100 and not above 10000, so rendered as 150 m. -/
theorem C9_activity_unit_heuristic_witness :
    formatFeatureValue "activity" "distance" (.jnum (.fin 150))
        = (if (150 : ℚ) > 10000 then Display.metersStr (150 / 1000)
            else if (150 : ℚ) > 100 then .metersStr 150
            else .kmStr 150)
    ∧ (if (150 : ℚ) > 10000 then Display.metersStr (150 / 1000)
        else if (150 : ℚ) > 100 then .metersStr 150
        else .kmStr 150) = .metersStr 150 :=
  ⟨C9_activity_unit_heuristic.1 "distance" 150 (by decide) (by decide)
      (by decide) (by decide) (by decide) (by decide),
   by norm_num⟩

/-- Claim `C10` (implicit): unit detection runs only in the `activity` context —
for every other metric every value passes through unchanged (`String(value)`,
objects as their JSON rendering), and `null` renders as the placeholder
dash. -/
theorem C10_non_activity_passthrough (metric key : String) (v : JsVal)
    (h : metric ≠ "activity") :
    formatFeatureValue metric key v
      = match v with
        | .jnull => Display.dash
        | .jobj r => .jsonOf r
        | _ => .strOf v := by
  cases v with
  | jnull => simp [formatFeatureValue]
  | jnum n => simp [formatFeatureValue, h]
  | jstr s c => simp [formatFeatureValue, h]
  | jobj r => simp [formatFeatureValue, h]

/-- Witness for `C10_non_activity_passthrough`: under the `sleep` metric the
`_mm` key is not converted, and an object value renders as JSON. -/
theorem C10_non_activity_passthrough_witness :
    formatFeatureValue "sleep" "tracker_total_distance_mm" (.jnum (.fin 5))
        = .strOf (.jnum (.fin 5))
    ∧ formatFeatureValue "stress" "samples" (.jobj "[1,2]") = .jsonOf "[1,2]" :=
  ⟨C10_non_activity_passthrough "sleep" "tracker_total_distance_mm"
      (.jnum (.fin 5)) (by decide),
   C10_non_activity_passthrough "stress" "samples" (.jobj "[1,2]") (by decide)⟩

end SmartMed
